import Mathlib

/-!
Verification of the license-header-checker repository.

The repository is a sequence of near-duplicate single-file Go variants of the
same program.  Three variants are present in the sources:

* variant V1 — the earliest program (first part of `lhc.go`): 100-line budget
  checked after accumulating, `break` on the first non-comment line,
  `strings.TrimPrefix` comment stripping, raw (case-preserving) accumulation;
* variant P0 — the intermediate program (`unnamed/part_000`): 50-line budget
  checked before processing, `break` on the first non-comment line,
  `strings.TrimPrefix` stripping, `ignoreComment` on the raw upper-cased line
  using substring containment;
* variant V2 — the latest program (second part of `lhc.go`): 50-line budget,
  upper-casing and "ALL RIGHTS RESERVED." removal before classification,
  `ignoreComment` on the comment-stripped line using prefix tests,
  `strings.TrimLeft` (cutset) stripping, and `continue` (not `break`) on a
  non-comment line; it also carries `accepted_license`, `checkSPDX`,
  `exclude` and the counting/exit-code driver.

Go strings are modelled as `List Char`; machine I/O (file handles, the
directory walker) is modelled by finite maps `List Char → Option (List Char)`
from file names to contents, with `Except Unit` capturing the
print-and-`os.Exit(1)` behaviour of the Go helper `check`.
-/

/-- Convert a string literal to the `List Char` representation used throughout. -/
def cs (s : String) : List Char := s.data

/-- Go `strings.HasPrefix s pre`. -/
def startsWithL : List Char → List Char → Bool
  | _, [] => true
  | [], _ :: _ => false
  | c :: t, p :: ps => c = p && startsWithL t ps

/-- Go `strings.Contains s sub`. -/
def goContains : List Char → List Char → Bool
  | [], sub => startsWithL [] sub
  | c :: t, sub => startsWithL (c :: t) sub || goContains t sub

/-- Go `strings.TrimPrefix s pre`: removes exactly one copy of `pre` if present. -/
def goTrimOnce (s pre : List Char) : List Char :=
  if startsWithL s pre then s.drop pre.length else s

/-- Go `strings.TrimLeft s cut`: removes the maximal leading run of characters
belonging to the cutset `cut`. -/
def goTrimLeft (s cut : List Char) : List Char :=
  s.dropWhile (fun c => cut.contains c)

/-- Go `strings.Split s sep` for `sep = "*/"`, first component only
(`strings.Split(s, "*/")[0]`): the prefix of `s` before the first `*/`. -/
def cutAtClose : List Char → List Char
  | [] => []
  | c :: t => if startsWithL (c :: t) (cs ("*/")) then [] else c :: cutAtClose t

/-- Go `strings.ToUpper` (ASCII behaviour, which is all the program relies on). -/
def toUpperL (s : List Char) : List Char := s.map Char.toUpper

/-- `stripSpaces` (all variants): delete every whitespace character
(`unicode.IsSpace`; ASCII whitespace in our embedding). -/
def stripSpaces (s : List Char) : List Char := s.filter (fun c => !c.isWhitespace)

/-- Fuel-driven worker for `strings.Replace(s, pat, "", -1)`:
delete every (non-overlapping, leftmost-first) occurrence of `pat`. -/
def replAllAux (pat : List Char) : Nat → List Char → List Char
  | _, [] => []
  | 0, s => s
  | fuel + 1, c :: t =>
    if startsWithL (c :: t) pat then replAllAux pat fuel ((c :: t).drop pat.length)
    else c :: replAllAux pat fuel t

/-- Go `strings.Replace(s, pat, "", -1)`. -/
def replaceAllEmpty (pat s : List Char) : List Char := replAllAux pat s.length s

/-- Everything after the first `:` in the line
(`strings.SplitN(s, ":", 2)[1]`, which is well-defined whenever `s` has a colon). -/
def afterFirstColon : List Char → List Char
  | [] => []
  | c :: t => if c = ':' then t else afterFirstColon t

/-- `isComment` (identical in all three variants): the string starts with
`#`, `//`, or `/*`. -/
def isComment (s : List Char) : Bool :=
  startsWithL s (cs ("#")) || startsWithL s (cs ("//")) || startsWithL s (cs ("/*"))

/-- `trimComment` of variant P0 (also inlined in variant V1's `fetchLicense`):
`TrimPrefix "#"`, `TrimPrefix "//"`, `TrimPrefix "/*"`, then `Split "*/"` `[0]`. -/
def trimCommentP0 (s : List Char) : List Char :=
  cutAtClose (goTrimOnce (goTrimOnce (goTrimOnce s (cs ("#"))) (cs ("//"))) (cs ("/*")))

/-- `trimComment` of variant V2: `TrimLeft` with cutsets `"#"`, `"//"`, `"/*"`,
`" *"`, then `Split "*/"` `[0]`, then `TrimLeft "*"`. -/
def trimCommentV2 (s : List Char) : List Char :=
  goTrimLeft
    (cutAtClose
      (goTrimLeft
        (goTrimLeft (goTrimLeft (goTrimLeft s (cs ("#"))) (cs ("//"))) (cs ("/*")))
        (cs (" *"))))
    (cs ("*"))

/-- `ignoreComment` of variant P0: upper-case the raw line; noise iff it starts
with `#!` or contains `COPYRIGHT`, `SPDX-LICENSE-IDENTIFIER`, or `MIT LICENSE`. -/
def ignoreCommentP0 (s : List Char) : Bool :=
  let u := toUpperL s
  startsWithL u (cs ("#!")) || goContains u (cs ("COPYRIGHT")) ||
    goContains u (cs ("SPDX-LICENSE-IDENTIFIER")) || goContains u (cs ("MIT LICENSE"))

/-- `ignoreComment` of variant V2: upper-case the comment-stripped line; noise
iff it starts with `#!`, `COPYRIGHT`, `SPDX-LICENSE-IDENTIFIER`, or `MIT LICENSE`. -/
def ignoreCommentV2 (s : List Char) : Bool :=
  let u := toUpperL (trimCommentV2 s)
  startsWithL u (cs ("#!")) || startsWithL u (cs ("COPYRIGHT")) ||
    startsWithL u (cs ("SPDX-LICENSE-IDENTIFIER")) || startsWithL u (cs ("MIT LICENSE"))

/-- The noise predicate in the words of the spec (§4.2), applied to an already
upper-cased comment-stripped line: starts with `#!`, with `COPYRIGHT`, with
`SPDX-LICENSE-IDENTIFIER`, or with the bare license-name phrase `MIT LICENSE`. -/
def isNoiseSpecOn (u : List Char) : Bool :=
  startsWithL u (cs ("#!")) || startsWithL u (cs ("COPYRIGHT")) ||
    startsWithL u (cs ("SPDX-LICENSE-IDENTIFIER")) || startsWithL u (cs ("MIT LICENSE"))

example : trimCommentP0 (cs ("// hello")) = cs (" hello") := by decide
example : trimCommentP0 (cs ("/* a */ b")) = cs (" a ") := by decide
example : trimCommentV2 (cs ("// hello")) = cs ("hello") := by decide
example : trimCommentV2 (cs ("##x")) = cs ("x") := by decide
example : ignoreCommentV2 (cs ("# Copyright 2020")) = true := by decide
example : ignoreCommentP0 (cs ("x copyright")) = true := by decide
example : isComment (cs ("/* a")) = true := by decide
example : isComment (cs (" /* a")) = false := by decide

/-- The `LICENSE_HEADER_LINES_MAX` constant of the later variants. -/
def LICENSE_HEADER_LINES_MAX : Nat := 50

/-- The scan state of `fetchLicense`: the `multilineComment` flag and the
`licenseText` accumulator. -/
structure ScanSt where
  multiline : Bool
  acc : List Char
deriving DecidableEq

/-- The upper-case / `ALL RIGHTS RESERVED.`-removal preprocessing that
variant V2's `fetchLicense` applies to each scanned line. -/
def prepV2 (l : List Char) : List Char :=
  replaceAllEmpty (cs ("ALL RIGHTS RESERVED.")) (toUpperL l)

/-- The scanning loop of variant V2's `fetchLicense` (second part of
`lhc.go`).  `comment` is the flag set from the file's first two bytes,
`i` the number of lines already counted.  A noise line is skipped; for a
comment-syntax file the multi-line flag is updated (`if` / `else if`), a line
that is neither in a block nor a comment — or that contains a contributors
marker — is skipped with `continue`, and otherwise the comment-stripped line
is appended. -/
def scanV2 (comment : Bool) : Nat → ScanSt → List (List Char) → ScanSt
  | _, st, [] => st
  | i, st, l :: rest =>
    if LICENSE_HEADER_LINES_MAX < i + 1 then st
    else
      let s := prepV2 l
      if ignoreCommentV2 s then scanV2 comment (i + 1) st rest
      else if comment then
        let ml := if startsWithL s (cs ("/*")) then true
                  else if goContains s (cs ("*/")) then false
                  else st.multiline
        if (!ml && !isComment s) || goContains (toUpperL s) (cs (" * CONTRIBUTORS:")) then
          scanV2 comment (i + 1) ⟨ml, st.acc⟩ rest
        else
          scanV2 comment (i + 1) ⟨ml, st.acc ++ trimCommentV2 s⟩ rest
      else scanV2 comment (i + 1) ⟨st.multiline, st.acc ++ s⟩ rest

/-- Variant V2's `fetchLicense` on the scanned lines, given the comment flag. -/
def fetchLicenseV2 (comment : Bool) (lines : List (List Char)) : List Char :=
  stripSpaces (scanV2 comment 0 ⟨false, []⟩ lines).acc

/-- The scanning loop of variant P0's `fetchLicense` (`unnamed/part_000`):
lines are kept in their original case, noise lines are skipped, and for a
comment-syntax file a line that is neither in a block nor a comment stops the
scan with `break`. -/
def scanP0 (comment : Bool) : Nat → ScanSt → List (List Char) → ScanSt
  | _, st, [] => st
  | i, st, l :: rest =>
    if LICENSE_HEADER_LINES_MAX < i + 1 then st
    else if ignoreCommentP0 l then scanP0 comment (i + 1) st rest
    else if comment then
      let ml := if startsWithL l (cs ("/*")) then true
                else if goContains l (cs ("*/")) then false
                else st.multiline
      if !ml && !isComment l then ⟨ml, st.acc⟩
      else scanP0 comment (i + 1) ⟨ml, st.acc ++ trimCommentP0 l⟩ rest
    else scanP0 comment (i + 1) ⟨st.multiline, st.acc ++ l⟩ rest

/-- Variant P0's `fetchLicense` on the scanned lines, given the comment flag. -/
def fetchLicenseP0 (comment : Bool) (lines : List (List Char)) : List Char :=
  stripSpaces (scanP0 comment 0 ⟨false, []⟩ lines).acc

/-- The scanning loop of variant V1's `fetchLicense` (first part of `lhc.go`).
Lines containing `Copyright` or `SPDX-License-Identifier` are skipped before
the counter is incremented; the block-close test additionally requires the
block to be open; the budget (literal `100`) is tested after the line has been
accumulated. -/
def scanV1 (code : Bool) : Nat → ScanSt → List (List Char) → ScanSt
  | _, st, [] => st
  | i, st, l :: rest =>
    if goContains l (cs ("Copyright")) then scanV1 code i st rest
    else if goContains l (cs ("SPDX-License-Identifier")) then scanV1 code i st rest
    else if code then
      let ml := if startsWithL l (cs ("/*")) then true
                else if st.multiline && goContains l (cs ("*/")) then false
                else st.multiline
      if !ml && !isComment l then ⟨ml, st.acc⟩
      else
        let st' : ScanSt := ⟨ml, st.acc ++ trimCommentP0 l⟩
        if 100 < i + 1 then st' else scanV1 code (i + 1) st' rest
    else
      let st' : ScanSt := ⟨st.multiline, st.acc ++ l⟩
      if 100 < i + 1 then st' else scanV1 code (i + 1) st' rest

/-- Variant V1's `fetchLicense` on the scanned lines, given the comment flag. -/
def fetchLicenseV1 (code : Bool) (lines : List (List Char)) : List Char :=
  stripSpaces (scanV1 code 0 ⟨false, []⟩ lines).acc

/-- `checkSPDX` of variant V2, on the file's lines: scan at most
`LICENSE_HEADER_LINES_MAX` lines for one containing `SPDX-LICENSE-IDENTIFIER:`
(after upper-casing); on the first such line, compare the whitespace-stripped
text after the first colon with `license` and return. -/
def checkSPDX (license : List Char) : Nat → List (List Char) → Bool
  | _, [] => false
  | i, l :: rest =>
    if LICENSE_HEADER_LINES_MAX < i + 1 then false
    else
      let s := toUpperL l
      if goContains s (cs ("SPDX-LICENSE-IDENTIFIER:")) then
        stripSpaces (afterFirstColon s) == license
      else checkSPDX license (i + 1) rest

/-- The `License` record of variant V2. -/
structure License where
  name : List Char
  text : List Char
deriving DecidableEq

/-- `accepted_license` of variant V2: the name of the first approved license
whose text is contained in `check`, else the empty string. -/
def accepted_license (check : List Char) : List License → List Char
  | [] => []
  | i :: rest => if goContains check i.text then i.name else accepted_license check rest

/-- `exclude` of variant V2: some exclude substring occurs in the path. -/
def exclude (path : List Char) (excludes : List (List Char)) : Bool :=
  excludes.any (fun e => goContains path e)

/-- The per-file SPDX outcome recorded by variant V2's driver loop: `checkSPDX`
is invoked with the name returned by `accepted_license` for that file's header. -/
def spdxRecorded (header : List Char) (approved : List License)
    (fileLines : List (List Char)) : Bool :=
  checkSPDX (accepted_license header approved) 0 fileLines

example : fetchLicenseV2 true [cs ("// a"), cs ("code"), cs ("// b")] = cs ("AB") := by decide
example : fetchLicenseP0 true [cs ("// a"), cs ("code"), cs ("// b")] = cs ("a") := by decide
example : (scanV2 true 0 ⟨false, []⟩ [cs ("/* a */")]).multiline = true := by decide
example : fetchLicenseV2 true [cs ("/* a */"), cs ("code")] = cs ("ACODE") := by decide
example : checkSPDX (cs ("MIT")) 0 [cs ("// spdx-license-identifier: mit")] = true := by decide
example : checkSPDX (cs ("mit")) 0 [cs ("// spdx-license-identifier: mit")] = false := by decide

/-- Go `strings.Split s (String.singleton sep)`. -/
def splitOnChar (sep : Char) : List Char → List (List Char)
  | [] => [[]]
  | c :: t =>
    if c = sep then [] :: splitOnChar sep t
    else
      match splitOnChar sep t with
      | [] => [[c]]
      | h :: r => (c :: h) :: r

/-- Drop one trailing carriage return (`bufio.ScanLines`'s `dropCR`). -/
def dropCR (l : List Char) : List Char :=
  if l.getLast? = some '\r' then l.dropLast else l

/-- The sequence of lines a `bufio.Scanner` yields for a file's contents:
split at newlines, drop a final empty token produced by a trailing newline,
and strip one trailing carriage return per line. -/
def linesOf (content : List Char) : List (List Char) :=
  if content.isEmpty then []
  else
    let parts := splitOnChar '\n' content
    let parts := if content.getLast? = some '\n' then parts.dropLast else parts
    parts.map dropCR

/-- The counters of variant V2's driver. -/
structure Counters where
  ignore : Nat
  miss : Nat
  pass : Nat
  spdx_miss : Nat
  spdx_pass : Nat
deriving DecidableEq

/-- The driver's exclusion test for one file:
`*excludePtr != "" && exclude(file, strings.Split(*excludePtr, ","))`. -/
def excludedP (excludeArg f : List Char) : Bool :=
  !excludeArg.isEmpty && exclude f (splitOnChar ',' excludeArg)

/-- Variant V2's `fetchLicense` including its input dispatch: a registry name
(`reg`, the embedded `licenses` package texts, external to `src`) is scanned
with `comment = false`; otherwise the file is opened (`none` → `check` prints
and exits 1, modelled as `Except.error`), its first two bytes decide
`comment` (an empty file makes the two-byte read fail), and its lines are
scanned. -/
def fetchLicenseFrom (reg fs : List Char → Option (List Char))
    (filename : List Char) : Except Unit (List Char) :=
  match reg filename with
  | some txt => .ok (fetchLicenseV2 false (linesOf txt))
  | none =>
    match fs filename with
    | none => .error ()
    | some content =>
      if content.isEmpty then .error ()
      else .ok (fetchLicenseV2 (isComment (content.take 2)) (linesOf content))

/-- The registry dispatch of variant V2's `fetchLicense`, with the four
embedded texts of the external `licenses` package as parameters. -/
def registryOf (a20 asf epl mit : List Char) (name : List Char) : Option (List Char) :=
  if name = cs ("Apache-2.0") then some a20
  else if name = cs ("Apache-2.0-ASF") then some asf
  else if name = cs ("EPL-1.0") then some epl
  else if name = cs ("MIT") then some mit
  else none

/-- The accepted-licenses list built by variant V2's `main` from the
comma-separated `-license` argument: one entry per element (name = the element
itself), and for `Apache-2.0` an additional entry carrying the ASF variant's
text under the same name. -/
def mkAccepted (reg fs : List Char → Option (List Char)) :
    List (List Char) → Except Unit (List License)
  | [] => .ok []
  | l :: rest =>
    match fetchLicenseFrom reg fs l with
    | .error e => .error e
    | .ok t =>
      if l = cs ("Apache-2.0") then
        match fetchLicenseFrom reg fs (cs ("Apache-2.0-ASF")) with
        | .error e => .error e
        | .ok t2 =>
          match mkAccepted reg fs rest with
          | .error e => .error e
          | .ok tail => .ok (⟨l, t⟩ :: ⟨l, t2⟩ :: tail)
      else
        match mkAccepted reg fs rest with
        | .error e => .error e
        | .ok tail => .ok (⟨l, t⟩ :: tail)

/-- The per-file loop of variant V2's `main`: an excluded file only bumps
`ignore`; otherwise the header is fetched (I/O failure exits), compared via
`accepted_license` (empty name → `miss`, else `pass`), and unless
`-disable-spdx` is set, `checkSPDX` is run with the matched name on the
re-opened file and bumps `spdx_pass` / `spdx_miss`. -/
def processFiles (reg fs : List Char → Option (List Char)) (approved : List License)
    (excludeArg : List Char) (disableSPDX : Bool) :
    Counters → List (List Char) → Except Unit Counters
  | cnt, [] => .ok cnt
  | cnt, f :: rest =>
    if excludedP excludeArg f then
      processFiles reg fs approved excludeArg disableSPDX
        ⟨cnt.ignore + 1, cnt.miss, cnt.pass, cnt.spdx_miss, cnt.spdx_pass⟩ rest
    else
      match fetchLicenseFrom reg fs f with
      | .error e => .error e
      | .ok header =>
        let lic := accepted_license header approved
        let cnt1 : Counters :=
          if lic.isEmpty then ⟨cnt.ignore, cnt.miss + 1, cnt.pass, cnt.spdx_miss, cnt.spdx_pass⟩
          else ⟨cnt.ignore, cnt.miss, cnt.pass + 1, cnt.spdx_miss, cnt.spdx_pass⟩
        if disableSPDX then processFiles reg fs approved excludeArg disableSPDX cnt1 rest
        else
          match fs f with
          | none => .error ()
          | some content =>
            let cnt2 : Counters :=
              if checkSPDX lic 0 (linesOf content) then
                ⟨cnt1.ignore, cnt1.miss, cnt1.pass, cnt1.spdx_miss, cnt1.spdx_pass + 1⟩
              else ⟨cnt1.ignore, cnt1.miss + 0, cnt1.pass, cnt1.spdx_miss + 1, cnt1.spdx_pass⟩
            processFiles reg fs approved excludeArg disableSPDX cnt2 rest

/-- Variant V2's `main` reduced to its checking core: build the accepted list
from the `-license` argument, run the per-file loop, and exit 1 exactly when
some header or SPDX check failed (`Except.error` models the early
print-and-exit-1 of an I/O failure). -/
def mainExit (reg fs : List Char → Option (List Char)) (licenseArg excludeArg : List Char)
    (disableSPDX : Bool) (files : List (List Char)) : Except Unit Nat :=
  match mkAccepted reg fs (splitOnChar ',' licenseArg) with
  | .error e => .error e
  | .ok approved =>
    match processFiles reg fs approved excludeArg disableSPDX ⟨0, 0, 0, 0, 0⟩ files with
    | .error e => .error e
    | .ok cnt => .ok (if cnt.miss ≠ 0 ∨ cnt.spdx_miss ≠ 0 then 1 else 0)

example : linesOf (cs ("a\r\nb\n")) = [cs ("a"), cs ("b")] := by decide
example : splitOnChar ',' (cs ("")) = [[]] := by decide
example : excludedP (cs ("gen")) (cs ("src/gen/a.go")) = true := by decide
example : excludedP (cs ("")) (cs ("src/gen/a.go")) = false := by decide

/-- `trimComment` in the words of the spec / claim C3: remove exactly one
leading `#`, one leading `//`, one leading `/*` (prefix removals first, left
to right), then everything from the first `*/` onward. -/
def trimCommentSpec (s : List Char) : List Char :=
  let s1 := if startsWithL s (cs ("#")) then s.drop 1 else s
  let s2 := if startsWithL s1 (cs ("//")) then s1.drop 2 else s1
  let s3 := if startsWithL s2 (cs ("/*")) then s2.drop 2 else s2
  cutAtClose s3

/-- C3 counterexample: the claim says `trimComment` removes exactly one
leading `#`, so `##A` would become `#A`; the stricter variant (`lhc.go`,
`strings.TrimLeft` with a cutset) removes the whole leading run of `#`
characters and yields `A`. -/
theorem trimCommentV2_cutset_cx :
    trimCommentV2 (cs ("##A")) = cs ("A") ∧ cs ("A") ≠ cs ("#A") := by
  decide

/-- C3 as amended: the `TrimPrefix`-based `trimComment` of `unnamed/part_000`
(also inlined in the earliest `lhc.go` variant) removes exactly one of each
leading marker and then truncates at the first `*/`, as the claim states;
the `TrimLeft`-based variant instead strips maximal leading runs of the cutset
characters, so a second leading `#` is removed as well. -/
theorem trimComment_exactly_one_P0 :
    (∀ s, trimCommentP0 s = trimCommentSpec s) ∧
    (∀ s, trimCommentV2 ('#' :: '#' :: s) = trimCommentV2 ('#' :: s)) := by
  constructor
  · intro s
    rfl
  · intro s
    rfl

/-- C4 counterexample: `X Copyright` is classified as noise by
`unnamed/part_000`'s `ignoreComment` (substring containment on the raw
upper-cased line), although per the claim it should not be noise: the
upper-cased comment-stripped line does not start with `#!`, `COPYRIGHT`,
`SPDX-LICENSE-IDENTIFIER`, or `MIT LICENSE`. -/
theorem ignoreCommentP0_containment_cx :
    ignoreCommentP0 (cs ("X Copyright")) = true ∧
    isNoiseSpecOn (toUpperL (trimCommentP0 (cs ("X Copyright")))) = false ∧
    isNoiseSpecOn (toUpperL (trimCommentV2 (cs ("X Copyright")))) = false := by
  decide

/-- C4 as amended: in the later `lhc.go` variant the noise classification is
exactly the claimed prefix test on the upper-cased comment-stripped line
(first conjunct); in the `unnamed/part_000` variant it instead tests
containment on the raw upper-cased line.  In both variants a noise line is
skipped entirely: within the line budget it neither terminates the scan nor
changes the scan state, so it contributes nothing to the canonical header. -/
theorem noise_classification_skip :
    (∀ l, ignoreCommentV2 l = isNoiseSpecOn (toUpperL (trimCommentV2 l))) ∧
    (∀ (c : Bool) (i : Nat) (st : ScanSt) (l : List Char) (rest : List (List Char)),
      i < LICENSE_HEADER_LINES_MAX → ignoreCommentV2 (prepV2 l) = true →
      scanV2 c i st (l :: rest) = scanV2 c (i + 1) st rest) ∧
    (∀ (c : Bool) (i : Nat) (st : ScanSt) (l : List Char) (rest : List (List Char)),
      i < LICENSE_HEADER_LINES_MAX → ignoreCommentP0 l = true →
      scanP0 c i st (l :: rest) = scanP0 c (i + 1) st rest) := by
  refine ⟨fun l => rfl, ?_, ?_⟩
  · intro c i st l rest hi hig
    simp only [scanV2]
    rw [if_neg (by omega)]
    simp [hig]
  · intro c i st l rest hi hig
    simp only [scanP0]
    rw [if_neg (by omega)]
    simp [hig]

/-- Witness for `noise_classification_skip` at a concrete noise line. -/
theorem noise_classification_skip_inst :
    scanV2 true 0 ⟨false, []⟩ [cs ("# Copyright 2020 J. Doe"), cs ("y")] =
      scanV2 true (0 + 1) ⟨false, []⟩ [cs ("y")] ∧
    scanP0 true 0 ⟨false, []⟩ [cs ("# Copyright 2020 J. Doe"), cs ("y")] =
      scanP0 true (0 + 1) ⟨false, []⟩ [cs ("y")] := by
  exact ⟨noise_classification_skip.2.1 true 0 ⟨false, []⟩ _ _ (by decide) (by decide),
    noise_classification_skip.2.2 true 0 ⟨false, []⟩ _ _ (by decide) (by decide)⟩

/-- `checkSPDX`'s loop, characterised by the first SPDX-marked line among the
lines still within the budget. -/
theorem aux_checkSPDX_find (L : List Char) :
    ∀ (lines : List (List Char)) (i : Nat),
      checkSPDX L i lines =
        (match (lines.take (LICENSE_HEADER_LINES_MAX - i)).find?
            (fun l => goContains (toUpperL l) (cs ("SPDX-LICENSE-IDENTIFIER:"))) with
          | none => false
          | some l => stripSpaces (afterFirstColon (toUpperL l)) == L) := by
  intro lines
  induction lines with
  | nil =>
    intro i
    simp [checkSPDX]
  | cons l rest ih =>
    intro i
    by_cases hb : LICENSE_HEADER_LINES_MAX < i + 1
    · have h0 : LICENSE_HEADER_LINES_MAX - i = 0 := by omega
      rw [h0]
      simp [checkSPDX, hb]
    · have h1 : LICENSE_HEADER_LINES_MAX - i = (LICENSE_HEADER_LINES_MAX - (i + 1)) + 1 := by
        omega
      rw [h1, List.take_succ_cons]
      by_cases hf : goContains (toUpperL l) (cs ("SPDX-LICENSE-IDENTIFIER:")) = true
      · simp [checkSPDX, hb, hf, List.find?]
      · simp only [checkSPDX]
        rw [if_neg hb]
        simp only [Bool.not_eq_true] at hf
        simp [hf, List.find?, ih (i + 1)]

/-- C5 counterexample: the claim says the SPDX value is compared
case-insensitively with the expected short name, so with expected name `mit`
the line `spdx-license-identifier: mit` would match; `checkSPDX` upper-cases
only the file side and compares exactly, so it returns `false` for `mit` and
`true` only when the expected name is already upper-case. -/
theorem checkSPDX_case_sensitive_cx :
    checkSPDX (cs ("mit")) 0 [cs ("// spdx-license-identifier: mit")] = false ∧
    checkSPDX (cs ("MIT")) 0 [cs ("// spdx-license-identifier: mit")] = true := by
  decide

/-- C5 as amended: `checkSPDX L` scans at most the 50-line budget for the
first line containing `SPDX-LICENSE-IDENTIFIER:` (case-insensitively, via
upper-casing); it returns true iff that line's text after its first colon,
whitespace-stripped and upper-cased, is exactly equal to `L` as supplied —
so `L` itself is compared case-sensitively and must be upper-case to match.
No SPDX line within the budget means false. -/
theorem checkSPDX_characterization (L : List Char) (lines : List (List Char)) :
    checkSPDX L 0 lines =
      (match (lines.take LICENSE_HEADER_LINES_MAX).find?
          (fun l => goContains (toUpperL l) (cs ("SPDX-LICENSE-IDENTIFIER:"))) with
        | none => false
        | some l => stripSpaces (afterFirstColon (toUpperL l)) == L) := by
  have h := aux_checkSPDX_find L lines 0
  simpa using h

/-- C6 counterexample: the driver's recorded SPDX outcome is NOT independent
of the header comparison.  Same file, same accepted-license names: when the
header matches (text `HELLO`), `checkSPDX` is called with the matched name
`LICENSE` and succeeds; when the header does not match (text `XYZ`),
`checkSPDX` is called with the empty name and fails. -/
theorem spdx_depends_on_header_cx :
    List.map License.name [(⟨cs ("LICENSE"), cs ("HELLO")⟩ : License)] =
      List.map License.name [(⟨cs ("LICENSE"), cs ("XYZ")⟩ : License)] ∧
    spdxRecorded
        (fetchLicenseV2 true [cs ("# SPDX-License-Identifier: LICENSE"), cs ("# Hello")])
        [⟨cs ("LICENSE"), cs ("HELLO")⟩]
        [cs ("# SPDX-License-Identifier: LICENSE"), cs ("# Hello")] = true ∧
    spdxRecorded
        (fetchLicenseV2 true [cs ("# SPDX-License-Identifier: LICENSE"), cs ("# Hello")])
        [⟨cs ("LICENSE"), cs ("XYZ")⟩]
        [cs ("# SPDX-License-Identifier: LICENSE"), cs ("# Hello")] = false := by
  decide

/-- C6 as amended: the recorded SPDX outcome is a function of the file's
lines and of the *name returned by the header comparison*
(`accepted_license`; the empty string when the header matched no accepted
license) — not of the file and the user-supplied expected name alone.  Any
two header texts on which `accepted_license` agrees record the same SPDX
outcome. -/
theorem spdx_determined_by_matched_name
    (h1 h2 : List Char) (approved : List License) (fileLines : List (List Char))
    (hagree : accepted_license h1 approved = accepted_license h2 approved) :
    spdxRecorded h1 approved fileLines = spdxRecorded h2 approved fileLines := by
  unfold spdxRecorded
  rw [hagree]

/-- Witness for `spdx_determined_by_matched_name` at concrete inputs. -/
theorem spdx_determined_by_matched_name_inst :
    spdxRecorded (cs ("AB")) [⟨cs ("N"), cs ("A")⟩]
        [cs ("// SPDX-License-Identifier: N")] =
      spdxRecorded (cs ("BA")) [⟨cs ("N"), cs ("A")⟩]
        [cs ("// SPDX-License-Identifier: N")] := by
  exact spdx_determined_by_matched_name (cs ("AB")) (cs ("BA"))
    [⟨cs ("N"), cs ("A")⟩] [cs ("// SPDX-License-Identifier: N")] (by decide)

/-- A non-comment line in particular does not start with `/*`. -/
theorem aux_not_comment_no_open (s : List Char) (h : isComment s = false) :
    startsWithL s (cs ("/*")) = false := by
  simp [isComment] at h
  exact h.2

/-- C1 counterexample: in the later `lhc.go` variant, a line that is neither
in an open block nor a comment (`code`) does NOT stop the scan — it is
skipped with `continue`, and the later comment line `// b` is still examined
and accumulated into the canonical header (`AB` instead of `A`). -/
theorem scanV2_noncomment_continue_cx :
    isComment (prepV2 (cs ("code"))) = false ∧
    ignoreCommentV2 (prepV2 (cs ("code"))) = false ∧
    fetchLicenseV2 true [cs ("// a"), cs ("code")] = cs ("A") ∧
    fetchLicenseV2 true [cs ("// a"), cs ("code"), cs ("// b")] = cs ("AB") ∧
    cs ("AB") ≠ cs ("A") := by
  decide

/-- C1 as amended: on a line that is neither inside an open block nor a
single-line comment (and is not noise), the `unnamed/part_000` variant stops
scanning (`break`): the scan returns the accumulator as it stands, no matter
what lines follow.  The later `lhc.go` variant instead skips the line
(`continue`): the accumulator is unchanged but scanning proceeds with the
remaining lines. -/
theorem noncomment_line_stop_or_skip :
    (∀ (i : Nat) (ml : Bool) (acc l : List Char) (rest : List (List Char)),
      i < LICENSE_HEADER_LINES_MAX → ignoreCommentP0 l = false →
      isComment l = false → (ml = false ∨ goContains l (cs ("*/")) = true) →
      scanP0 true i ⟨ml, acc⟩ (l :: rest) = ⟨false, acc⟩) ∧
    (∀ (i : Nat) (ml : Bool) (acc l : List Char) (rest : List (List Char)),
      i < LICENSE_HEADER_LINES_MAX → ignoreCommentV2 (prepV2 l) = false →
      isComment (prepV2 l) = false →
      (ml = false ∨ goContains (prepV2 l) (cs ("*/")) = true) →
      scanV2 true i ⟨ml, acc⟩ (l :: rest) = scanV2 true (i + 1) ⟨false, acc⟩ rest) := by
  constructor
  · intro i ml acc l rest hi hig hic hml
    have hopen := aux_not_comment_no_open l hic
    simp only [scanP0]
    rw [if_neg (by omega)]
    rcases hml with hml | hml
    · subst hml
      simp [hig, hopen, hic]
    · simp [hig, hopen, hml, hic]
  · intro i ml acc l rest hi hig hic hml
    have hopen := aux_not_comment_no_open (prepV2 l) hic
    simp only [scanV2]
    rw [if_neg (by omega)]
    rcases hml with hml | hml
    · subst hml
      simp [hig, hopen, hic]
    · simp [hig, hopen, hml, hic]

/-- Witness for `noncomment_line_stop_or_skip` at a concrete non-comment line. -/
theorem noncomment_line_stop_or_skip_inst :
    scanP0 true 0 ⟨false, cs ("A")⟩ [cs ("x()"), cs ("// y")] = ⟨false, cs ("A")⟩ ∧
    scanV2 true 0 ⟨false, cs ("A")⟩ [cs ("x()"), cs ("// y")] =
      scanV2 true (0 + 1) ⟨false, cs ("A")⟩ [cs ("// y")] := by
  exact ⟨noncomment_line_stop_or_skip.1 0 false (cs ("A")) (cs ("x()")) [cs ("// y")]
      (by decide) (by decide) (by decide) (Or.inl rfl),
    noncomment_line_stop_or_skip.2 0 false (cs ("A")) (cs ("x()")) [cs ("// y")]
      (by decide) (by decide) (by decide) (Or.inl rfl)⟩

/-- C2 counterexample: a one-line block comment `/* a */` leaves the
multi-line state OPEN, not closed: the open test (`HasPrefix "/*"`) wins and
the close test sits in an `else if`.  Consequently the following plain code
line is treated as inside a block and accumulated (`ACODE`). -/
theorem oneline_block_leaves_open_cx :
    (scanV2 true 0 ⟨false, []⟩ [cs ("/* a */")]).multiline = true ∧
    (scanP0 true 0 ⟨false, []⟩ [cs ("/* a */")]).multiline = true ∧
    fetchLicenseV2 true [cs ("/* a */"), cs ("code")] = cs ("ACODE") := by
  decide

/-- A line of the body of an open block in variant V2's scan: not noise, does
not open (`/*`) or close (`*/`) a block, and carries no contributors marker. -/
def bodyCleanV2 (l : List Char) : Bool :=
  !ignoreCommentV2 (prepV2 l) && !startsWithL (prepV2 l) (cs ("/*")) &&
    !goContains (prepV2 l) (cs ("*/")) &&
    !goContains (toUpperL (prepV2 l)) (cs (" * CONTRIBUTORS:"))

/-- C2 as amended: within the budget, a non-noise line starting with `/*`
sets the block state open — even if the same line also contains `*/`, so a
one-line block comment leaves the state open; a non-noise line that does not
start with `/*` but contains `*/` sets the state closed; and while the state
is open, every line of the block body is accumulated (comment-stripped) into
the header, one line per scanned line. -/
theorem multiline_state_transitions :
    (∀ (i : Nat) (ml : Bool) (acc l : List Char),
      i < LICENSE_HEADER_LINES_MAX → ignoreCommentV2 (prepV2 l) = false →
      startsWithL (prepV2 l) (cs ("/*")) = true →
      (scanV2 true i ⟨ml, acc⟩ [l]).multiline = true) ∧
    (∀ (i : Nat) (ml : Bool) (acc l : List Char),
      i < LICENSE_HEADER_LINES_MAX → ignoreCommentV2 (prepV2 l) = false →
      startsWithL (prepV2 l) (cs ("/*")) = false →
      goContains (prepV2 l) (cs ("*/")) = true →
      (scanV2 true i ⟨ml, acc⟩ [l]).multiline = false) ∧
    (∀ (i : Nat) (acc : List Char) (body rest : List (List Char)),
      i + body.length ≤ LICENSE_HEADER_LINES_MAX →
      (∀ l ∈ body, bodyCleanV2 l = true) →
      scanV2 true i ⟨true, acc⟩ (body ++ rest) =
        scanV2 true (i + body.length)
          ⟨true, acc ++ (body.map (fun l => trimCommentV2 (prepV2 l))).flatten⟩ rest) := by
  refine ⟨?_, ?_, ?_⟩
  · intro i ml acc l hi hig hopen
    simp only [scanV2]
    rw [if_neg (by omega)]
    simp only [hig, hopen]
    simp only [Bool.false_eq_true, if_false, if_true]
    split <;> rfl
  · intro i ml acc l hi hig hopen hclose
    simp only [scanV2]
    rw [if_neg (by omega)]
    simp only [hig, hopen, hclose]
    simp only [Bool.false_eq_true, if_false, if_true]
    split <;> rfl
  · intro i acc body
    induction body generalizing i acc with
    | nil =>
      intro rest hlen hclean
      simp
    | cons l body ih =>
      intro rest hlen hclean
      have hcl := hclean l (List.mem_cons_self l body)
      simp only [bodyCleanV2, Bool.and_eq_true, Bool.not_eq_true'] at hcl
      obtain ⟨⟨⟨hig, hopen⟩, hclose⟩, hcontrib⟩ := hcl
      have hlen' : i + 1 + body.length ≤ LICENSE_HEADER_LINES_MAX := by
        simp [List.length_cons] at hlen
        omega
      simp only [List.cons_append, scanV2]
      rw [if_neg (by simp [List.length_cons] at hlen; omega)]
      simp only [hig, hopen, hclose, hcontrib, Bool.not_true, Bool.false_and,
        Bool.or_false, Bool.false_eq_true, if_false, if_true, List.append_eq]
      rw [ih (i + 1) (acc ++ trimCommentV2 (prepV2 l)) rest hlen'
        (fun x hx => hclean x (List.mem_cons_of_mem l hx))]
      have hn : i + (l :: body).length = i + 1 + body.length := by
        simp [List.length_cons]
        omega
      rw [hn]
      simp [List.append_assoc]

/-- Witness for `multiline_state_transitions` at concrete lines. -/
theorem multiline_state_transitions_inst :
    (scanV2 true 0 ⟨false, []⟩ [cs ("/* x */")]).multiline = true ∧
    (scanV2 true 3 ⟨true, []⟩ [cs (" */")]).multiline = false ∧
    scanV2 true 0 ⟨true, cs ("B")⟩ ([cs ("x")] ++ [cs (" */")]) =
      scanV2 true (0 + [cs ("x")].length)
        ⟨true, cs ("B") ++ ([cs ("x")].map (fun l => trimCommentV2 (prepV2 l))).flatten⟩
        [cs (" */")] := by
  exact ⟨multiline_state_transitions.1 0 false [] (cs ("/* x */")) (by decide) (by decide)
      (by decide),
    multiline_state_transitions.2.1 3 true [] (cs (" */")) (by decide) (by decide) (by decide)
      (by decide),
    multiline_state_transitions.2.2 0 (cs ("B")) [cs ("x")] [cs (" */")] (by decide)
      (by decide)⟩

/-- Variant V2's scan never looks past the lines remaining in its budget. -/
theorem aux_scanV2_take (c : Bool) :
    ∀ (lines : List (List Char)) (i : Nat) (st : ScanSt),
      scanV2 c i st lines = scanV2 c i st (lines.take (LICENSE_HEADER_LINES_MAX - i)) := by
  intro lines
  induction lines with
  | nil =>
    intro i st
    simp
  | cons l rest ih =>
    intro i st
    by_cases hb : LICENSE_HEADER_LINES_MAX < i + 1
    · have h0 : LICENSE_HEADER_LINES_MAX - i = 0 := by omega
      rw [h0]
      simp [scanV2, hb]
    · have h1 : LICENSE_HEADER_LINES_MAX - i = (LICENSE_HEADER_LINES_MAX - (i + 1)) + 1 := by
        omega
      rw [h1, List.take_succ_cons]
      simp only [scanV2]
      rw [if_neg hb, if_neg hb]
      by_cases hig : ignoreCommentV2 (prepV2 l) = true
      · rw [if_pos hig, if_pos hig]
        exact ih (i + 1) st
      · rw [if_neg hig, if_neg hig]
        cases c with
        | false =>
          rw [if_neg (by simp), if_neg (by simp)]
          exact ih (i + 1) _
        | true =>
          rw [if_pos rfl, if_pos rfl]
          split <;> (try split) <;> (try split) <;> first | rfl | exact ih (i + 1) _

/-- Variant P0's scan never looks past the lines remaining in its budget. -/
theorem aux_scanP0_take (c : Bool) :
    ∀ (lines : List (List Char)) (i : Nat) (st : ScanSt),
      scanP0 c i st lines = scanP0 c i st (lines.take (LICENSE_HEADER_LINES_MAX - i)) := by
  intro lines
  induction lines with
  | nil =>
    intro i st
    simp
  | cons l rest ih =>
    intro i st
    by_cases hb : LICENSE_HEADER_LINES_MAX < i + 1
    · have h0 : LICENSE_HEADER_LINES_MAX - i = 0 := by omega
      rw [h0]
      simp [scanP0, hb]
    · have h1 : LICENSE_HEADER_LINES_MAX - i = (LICENSE_HEADER_LINES_MAX - (i + 1)) + 1 := by
        omega
      rw [h1, List.take_succ_cons]
      simp only [scanP0]
      rw [if_neg hb, if_neg hb]
      by_cases hig : ignoreCommentP0 l = true
      · rw [if_pos hig, if_pos hig]
        exact ih (i + 1) st
      · rw [if_neg hig, if_neg hig]
        cases c with
        | false =>
          rw [if_neg (by simp), if_neg (by simp)]
          exact ih (i + 1) _
        | true =>
          rw [if_pos rfl, if_pos rfl]
          split <;> (try split) <;> (try split) <;> first | rfl | exact ih (i + 1) _

set_option maxRecDepth 8000 in
/-- C7 counterexample, against the earliest variant (first part of `lhc.go`):
its budget test `i++ ; if i > 100 break` sits after the line has been
accumulated, so the 101st counted line (`B`) is examined and accumulated —
the output differs from the output on the first 100 lines alone. -/
theorem fetchLicenseV1_budget_cx :
    fetchLicenseV1 false (List.replicate 100 (cs ("A")) ++ [cs ("B"), cs ("C")]) =
      List.replicate 100 'A' ++ cs ("B") ∧
    fetchLicenseV1 false ((List.replicate 100 (cs ("A")) ++ [cs ("B"), cs ("C")]).take 100) =
      List.replicate 100 'A' ∧
    List.replicate 100 'A' ++ cs ("B") ≠ List.replicate 100 'A' := by
  decide

/-- C7 as amended, for the later variants: their budget test `i++ ; if i > 50
break` runs before the line is processed, so the canonical header produced by
`fetchLicense` depends only on the first `LICENSE_HEADER_LINES_MAX = 50`
lines; no later line is examined or accumulated.  (The earliest variant
accumulates a 101st counted line and does not count skipped lines at all —
see the counterexample.) -/
theorem fetchLicense_budget_take :
    (∀ (c : Bool) (lines : List (List Char)),
      fetchLicenseV2 c lines = fetchLicenseV2 c (lines.take LICENSE_HEADER_LINES_MAX)) ∧
    (∀ (c : Bool) (lines : List (List Char)),
      fetchLicenseP0 c lines = fetchLicenseP0 c (lines.take LICENSE_HEADER_LINES_MAX)) := by
  constructor
  · intro c lines
    unfold fetchLicenseV2
    have h := aux_scanV2_take c lines 0 ⟨false, []⟩
    rw [Nat.sub_zero] at h
    rw [h]
  · intro c lines
    unfold fetchLicenseP0
    have h := aux_scanP0_take c lines 0 ⟨false, []⟩
    rw [Nat.sub_zero] at h
    rw [h]

/-- What one scanned line contributes to variant V2's accumulator when the
multi-line state is (and stays) closed: the comment-stripped line if it is a
non-noise comment line without a contributors marker, nothing otherwise. -/
def scanContribV2 (l : List Char) : List Char :=
  if ignoreCommentV2 (prepV2 l) = false ∧ isComment (prepV2 l) = true ∧
      goContains (toUpperL (prepV2 l)) (cs (" * CONTRIBUTORS:")) = false
  then trimCommentV2 (prepV2 l) else []

/-- If every block-opening line is noise, variant V2's scan from a closed
state stays closed and accumulates exactly the per-line contributions. -/
theorem aux_scanV2_noopen :
    ∀ (lines : List (List Char)) (i : Nat) (acc : List Char),
      (∀ l ∈ lines, startsWithL (prepV2 l) (cs ("/*")) = true →
        ignoreCommentV2 (prepV2 l) = true) →
      i + lines.length ≤ LICENSE_HEADER_LINES_MAX →
      scanV2 true i ⟨false, acc⟩ lines =
        ⟨false, acc ++ (lines.map scanContribV2).flatten⟩ := by
  intro lines
  induction lines with
  | nil =>
    intro i acc _ _
    simp [scanV2]
  | cons l rest ih =>
    intro i acc H hlen
    have hb : ¬ LICENSE_HEADER_LINES_MAX < i + 1 := by
      simp [List.length_cons] at hlen
      omega
    have hlen' : (i + 1) + rest.length ≤ LICENSE_HEADER_LINES_MAX := by
      simp [List.length_cons] at hlen
      omega
    have Hrest : ∀ x ∈ rest, startsWithL (prepV2 x) (cs ("/*")) = true →
        ignoreCommentV2 (prepV2 x) = true :=
      fun x hx hs => H x (List.mem_cons_of_mem l hx) hs
    simp only [scanV2]
    rw [if_neg hb]
    by_cases hig : ignoreCommentV2 (prepV2 l) = true
    · rw [if_pos hig, ih (i + 1) acc Hrest hlen']
      simp [scanContribV2, hig]
    · rw [if_neg hig, if_pos trivial]
      have hopen : startsWithL (prepV2 l) (cs ("/*")) = false := by
        by_contra hc
        rw [Bool.not_eq_false] at hc
        exact hig (H l (List.mem_cons_self l rest) hc)
      have hig' : ignoreCommentV2 (prepV2 l) = false := by
        simpa using hig
      simp only [hopen, Bool.false_eq_true, if_false]
      by_cases hic : isComment (prepV2 l) = true
      · by_cases hct :
            goContains (toUpperL (prepV2 l)) (cs (" * CONTRIBUTORS:")) = true
        · simp only [hic, hct, Bool.not_true, Bool.or_true, ite_self, Bool.and_false,
            if_true]
          rw [ih (i + 1) acc Hrest hlen']
          simp [scanContribV2, hct]
        · have hct' :
              goContains (toUpperL (prepV2 l)) (cs (" * CONTRIBUTORS:")) = false := by
            simpa using hct
          simp only [hic, hct', ite_self, Bool.not_true, Bool.and_false, Bool.false_or,
            Bool.or_false, Bool.false_eq_true, if_false]
          rw [ih (i + 1) (acc ++ trimCommentV2 (prepV2 l)) Hrest hlen']
          simp [scanContribV2, hig', hic, hct', List.append_assoc]
      · have hic' : isComment (prepV2 l) = false := by
          simpa using hic
        simp only [hic', ite_self, Bool.not_false, Bool.true_and, Bool.not_true,
          Bool.true_or, if_true]
        rw [ih (i + 1) acc Hrest hlen']
        simp [scanContribV2, hic']

/-- C10 (confirmed): the noise filter runs before the multi-line state is
updated, so in a comment-syntax file in which every block-opening line (a
line whose preprocessed form starts with `/*`, e.g. `/* Copyright ...`) is
classified as noise, the in-block state is never set to open, and the header
body lines carrying no comment markers of their own contribute nothing:
the canonical header collects only non-noise comment lines. -/
theorem noise_opening_line_never_opens
    (lines : List (List Char))
    (H : ∀ l ∈ lines, startsWithL (prepV2 l) (cs ("/*")) = true →
      ignoreCommentV2 (prepV2 l) = true)
    (hlen : lines.length ≤ LICENSE_HEADER_LINES_MAX) :
    (∀ k, (scanV2 true 0 ⟨false, []⟩ (lines.take k)).multiline = false) ∧
    fetchLicenseV2 true lines = stripSpaces ((lines.map scanContribV2).flatten) := by
  constructor
  · intro k
    have Hk : ∀ l ∈ lines.take k, startsWithL (prepV2 l) (cs ("/*")) = true →
        ignoreCommentV2 (prepV2 l) = true :=
      fun l hl hs => H l (List.mem_of_mem_take hl) hs
    have hlk : 0 + (lines.take k).length ≤ LICENSE_HEADER_LINES_MAX := by
      simp [List.length_take]
      omega
    rw [aux_scanV2_noopen (lines.take k) 0 [] Hk hlk]
  · unfold fetchLicenseV2
    rw [aux_scanV2_noopen lines 0 [] H (by omega)]
    simp

/-- Witness for `noise_opening_line_never_opens` on a file whose block opener
is a copyright line: nothing is accumulated at all. -/
theorem noise_opening_line_never_opens_inst :
    (scanV2 true 0 ⟨false, []⟩ ([cs ("/* Copyright 2020 X"), cs ("Permission granted"),
        cs (" */"), cs ("code()")].take 4)).multiline = false ∧
    fetchLicenseV2 true [cs ("/* Copyright 2020 X"), cs ("Permission granted"),
        cs (" */"), cs ("code()")] =
      stripSpaces (([cs ("/* Copyright 2020 X"), cs ("Permission granted"),
        cs (" */"), cs ("code()")].map scanContribV2).flatten) := by
  exact ⟨(noise_opening_line_never_opens _ (by decide) (by decide)).1 4,
    (noise_opening_line_never_opens _ (by decide) (by decide)).2⟩

example : fetchLicenseV2 true [cs ("/* Copyright 2020 X"), cs ("Permission granted"),
    cs (" */"), cs ("code()")] = [] := by
  decide

/-- Counting invariant of the driver loop: a successful run bumps
`ignore + miss + pass` once per file, and `ignore` exactly once per excluded
file. -/
theorem aux_process_counts (reg fs : List Char → Option (List Char))
    (approved : List License) (ex : List Char) (dis : Bool) :
    ∀ (files : List (List Char)) (cnt cnt' : Counters),
      processFiles reg fs approved ex dis cnt files = .ok cnt' →
      cnt'.ignore + cnt'.miss + cnt'.pass =
          cnt.ignore + cnt.miss + cnt.pass + files.length ∧
        cnt'.ignore = cnt.ignore + files.countP (fun f => excludedP ex f) := by
  intro files
  induction files with
  | nil =>
    intro cnt cnt' h
    simp only [processFiles, Except.ok.injEq] at h
    subst h
    simp
  | cons f rest ih =>
    intro cnt cnt' h
    simp only [processFiles] at h
    by_cases hex : excludedP ex f = true
    · rw [if_pos hex] at h
      obtain ⟨h1, h2⟩ := ih _ _ h
      try simp at h1
      try simp at h2
      simp [List.countP_cons, List.length_cons, hex]
      omega
    · rw [if_neg hex] at h
      rw [Bool.not_eq_true] at hex
      cases hfe : fetchLicenseFrom reg fs f with
      | error e =>
        simp only [hfe] at h
        exact Except.noConfusion h
      | ok header =>
        simp only [hfe] at h
        by_cases hemp : (accepted_license header approved).isEmpty = true
        · rw [if_pos hemp] at h
          by_cases hdis : dis = true
          · rw [if_pos hdis] at h
            obtain ⟨h1, h2⟩ := ih _ _ h
            try simp at h1
            try simp at h2
            simp [List.countP_cons, List.length_cons, hex]
            omega
          · rw [if_neg hdis] at h
            cases hco : fs f with
            | none =>
              simp only [hco] at h
              exact Except.noConfusion h
            | some content =>
              simp only [hco] at h
              by_cases hck : checkSPDX (accepted_license header approved) 0
                  (linesOf content) = true
              · rw [if_pos hck] at h
                obtain ⟨h1, h2⟩ := ih _ _ h
                try simp at h1
                try simp at h2
                simp [List.countP_cons, List.length_cons, hex]
                omega
              · rw [if_neg hck] at h
                obtain ⟨h1, h2⟩ := ih _ _ h
                try simp at h1
                try simp at h2
                simp [List.countP_cons, List.length_cons, hex]
                omega
        · rw [if_neg hemp] at h
          by_cases hdis : dis = true
          · rw [if_pos hdis] at h
            obtain ⟨h1, h2⟩ := ih _ _ h
            try simp at h1
            try simp at h2
            simp [List.countP_cons, List.length_cons, hex]
            omega
          · rw [if_neg hdis] at h
            cases hco : fs f with
            | none =>
              simp only [hco] at h
              exact Except.noConfusion h
            | some content =>
              simp only [hco] at h
              by_cases hck : checkSPDX (accepted_license header approved) 0
                  (linesOf content) = true
              · rw [if_pos hck] at h
                obtain ⟨h1, h2⟩ := ih _ _ h
                try simp at h1
                try simp at h2
                simp [List.countP_cons, List.length_cons, hex]
                omega
              · rw [if_neg hck] at h
                obtain ⟨h1, h2⟩ := ih _ _ h
                try simp at h1
                try simp at h2
                simp [List.countP_cons, List.length_cons, hex]
                omega

/-- C9 (confirmed): in a run of the driver loop that reaches the summary,
each enumerated file has incremented exactly one of the ignored / missing /
passed counters, so `Ignored + Missing + Passed` equals the printed
`License Total` (`len(checkFiles)`), and the ignored counter counts exactly
the files excluded by a substring match — an excluded file never contributes
to missing or passed. -/
theorem counters_partition (reg fs : List Char → Option (List Char))
    (approved : List License) (ex : List Char) (dis : Bool)
    (files : List (List Char)) (cnt : Counters)
    (h : processFiles reg fs approved ex dis ⟨0, 0, 0, 0, 0⟩ files = .ok cnt) :
    cnt.ignore + cnt.miss + cnt.pass = files.length ∧
      cnt.ignore = files.countP (fun f => excludedP ex f) := by
  obtain ⟨h1, h2⟩ := aux_process_counts reg fs approved ex dis files ⟨0, 0, 0, 0, 0⟩ cnt h
  simp at h1 h2
  exact ⟨h1, h2⟩

/-- Witness for `counters_partition`: a run over one passing file and one
excluded file. -/
theorem counters_partition_inst :
    (⟨1, 0, 1, 0, 0⟩ : Counters).ignore + (⟨1, 0, 1, 0, 0⟩ : Counters).miss +
        (⟨1, 0, 1, 0, 0⟩ : Counters).pass = [cs ("a.go"), cs ("skip/b.go")].length ∧
      (⟨1, 0, 1, 0, 0⟩ : Counters).ignore =
        [cs ("a.go"), cs ("skip/b.go")].countP
          (fun f => excludedP (cs ("skip")) f) := by
  exact counters_partition (fun _ => none)
    (fun n => if n = cs ("a.go") then some (cs ("ZZ")) else none)
    [⟨cs ("lic"), cs ("ZZ")⟩] (cs ("skip")) true
    [cs ("a.go"), cs ("skip/b.go")] ⟨1, 0, 1, 0, 0⟩ rfl

/-- What the driver requires of one (non-excluded) file for a fully passing
run: its header fetch succeeds, the header matches some accepted license,
and — unless SPDX checking is disabled — the file re-opens and its SPDX
identifier check passes for the matched name. -/
def fileGood (reg fs : List Char → Option (List Char)) (approved : List License)
    (ex : List Char) (dis : Bool) (f : List Char) : Prop :=
  excludedP ex f = false →
    ∃ header, fetchLicenseFrom reg fs f = .ok header ∧
      accepted_license header approved ≠ [] ∧
      (dis = true ∨ ∃ content, fs f = some content ∧
        checkSPDX (accepted_license header approved) 0 (linesOf content) = true)

/-- The driver loop never decreases the miss counters. -/
theorem aux_process_mono (reg fs : List Char → Option (List Char))
    (approved : List License) (ex : List Char) (dis : Bool) :
    ∀ (files : List (List Char)) (cnt cnt' : Counters),
      processFiles reg fs approved ex dis cnt files = .ok cnt' →
      cnt.miss ≤ cnt'.miss ∧ cnt.spdx_miss ≤ cnt'.spdx_miss := by
  intro files
  induction files with
  | nil =>
    intro cnt cnt' h
    simp only [processFiles, Except.ok.injEq] at h
    subst h
    exact ⟨Nat.le_refl _, Nat.le_refl _⟩
  | cons f rest ih =>
    intro cnt cnt' h
    simp only [processFiles] at h
    by_cases hex : excludedP ex f = true
    · rw [if_pos hex] at h
      obtain ⟨h1, h2⟩ := ih _ _ h
      try simp at h1
      try simp at h2
      omega
    · rw [if_neg hex] at h
      cases hfe : fetchLicenseFrom reg fs f with
      | error e =>
        simp only [hfe] at h
        exact Except.noConfusion h
      | ok header =>
        simp only [hfe] at h
        by_cases hemp : (accepted_license header approved).isEmpty = true
        · rw [if_pos hemp] at h
          by_cases hdis : dis = true
          · rw [if_pos hdis] at h
            obtain ⟨h1, h2⟩ := ih _ _ h
            try simp at h1
            try simp at h2
            omega
          · rw [if_neg hdis] at h
            cases hco : fs f with
            | none =>
              simp only [hco] at h
              exact Except.noConfusion h
            | some content =>
              simp only [hco] at h
              by_cases hck : checkSPDX (accepted_license header approved) 0
                  (linesOf content) = true
              · rw [if_pos hck] at h
                obtain ⟨h1, h2⟩ := ih _ _ h
                try simp at h1
                try simp at h2
                omega
              · rw [if_neg hck] at h
                obtain ⟨h1, h2⟩ := ih _ _ h
                try simp at h1
                try simp at h2
                omega
        · rw [if_neg hemp] at h
          by_cases hdis : dis = true
          · rw [if_pos hdis] at h
            obtain ⟨h1, h2⟩ := ih _ _ h
            try simp at h1
            try simp at h2
            omega
          · rw [if_neg hdis] at h
            cases hco : fs f with
            | none =>
              simp only [hco] at h
              exact Except.noConfusion h
            | some content =>
              simp only [hco] at h
              by_cases hck : checkSPDX (accepted_license header approved) 0
                  (linesOf content) = true
              · rw [if_pos hck] at h
                obtain ⟨h1, h2⟩ := ih _ _ h
                try simp at h1
                try simp at h2
                omega
              · rw [if_neg hck] at h
                obtain ⟨h1, h2⟩ := ih _ _ h
                try simp at h1
                try simp at h2
                omega

/-- If every file is good, the loop succeeds without bumping a miss counter. -/
theorem aux_process_complete (reg fs : List Char → Option (List Char))
    (approved : List License) (ex : List Char) (dis : Bool) :
    ∀ (files : List (List Char)),
      (∀ f ∈ files, fileGood reg fs approved ex dis f) →
      ∀ cnt : Counters,
        ∃ cnt', processFiles reg fs approved ex dis cnt files = .ok cnt' ∧
          cnt'.miss = cnt.miss ∧ cnt'.spdx_miss = cnt.spdx_miss := by
  intro files
  induction files with
  | nil =>
    intro _ cnt
    exact ⟨cnt, rfl, rfl, rfl⟩
  | cons f rest ih =>
    intro H cnt
    by_cases hex : excludedP ex f = true
    · obtain ⟨cnt', hok, hm, hs⟩ := ih (fun x hx => H x (List.mem_cons_of_mem f hx))
        ⟨cnt.ignore + 1, cnt.miss, cnt.pass, cnt.spdx_miss, cnt.spdx_pass⟩
      refine ⟨cnt', ?_, by simpa using hm, by simpa using hs⟩
      simp only [processFiles]
      rw [if_pos hex]
      exact hok
    · have hex' : excludedP ex f = false := by simpa using hex
      obtain ⟨header, hfe, hlic, hrest⟩ := H f (List.mem_cons_self f rest) hex'
      have hl : (accepted_license header approved).isEmpty = false := by
        cases hl : (accepted_license header approved).isEmpty
        · rfl
        · exact absurd (List.isEmpty_iff.mp hl) hlic
      by_cases hdis : dis = true
      · obtain ⟨cnt', hok, hm, hs⟩ := ih (fun x hx => H x (List.mem_cons_of_mem f hx))
          ⟨cnt.ignore, cnt.miss, cnt.pass + 1, cnt.spdx_miss, cnt.spdx_pass⟩
        refine ⟨cnt', ?_, by simpa using hm, by simpa using hs⟩
        simp only [processFiles]
        rw [if_neg hex]
        simp only [hfe]
        rw [hl, if_pos hdis]
        simp only [Bool.false_eq_true, if_false]
        exact hok
      · rcases hrest with hrest | ⟨content, hco, hck⟩
        · exact absurd hrest hdis
        · obtain ⟨cnt', hok, hm, hs⟩ := ih (fun x hx => H x (List.mem_cons_of_mem f hx))
            ⟨cnt.ignore, cnt.miss, cnt.pass + 1, cnt.spdx_miss, cnt.spdx_pass + 1⟩
          refine ⟨cnt', ?_, by simpa using hm, by simpa using hs⟩
          simp only [processFiles]
          rw [if_neg hex]
          simp only [hfe]
          rw [hl, if_neg hdis]
          simp only [hco]
          rw [hck]
          simp only [Bool.false_eq_true, if_false]
          exact hok

/-- A successful loop run that bumps no miss counter certifies every file. -/
theorem aux_process_sound (reg fs : List Char → Option (List Char))
    (approved : List License) (ex : List Char) (dis : Bool) :
    ∀ (files : List (List Char)) (cnt cnt' : Counters),
      processFiles reg fs approved ex dis cnt files = .ok cnt' →
      cnt'.miss = cnt.miss → cnt'.spdx_miss = cnt.spdx_miss →
      ∀ f ∈ files, fileGood reg fs approved ex dis f := by
  intro files
  induction files with
  | nil =>
    intro cnt cnt' _ _ _ f hf
    exact absurd hf (List.not_mem_nil f)
  | cons f rest ih =>
    intro cnt cnt' h hm hs g hg
    simp only [processFiles] at h
    by_cases hex : excludedP ex f = true
    · rw [if_pos hex] at h
      rcases List.mem_cons.mp hg with rfl | hg'
      · intro hgex
        rw [hex] at hgex
        exact Bool.noConfusion hgex
      · exact ih _ _ h (by simpa using hm) (by simpa using hs) g hg'
    · have hex' : excludedP ex f = false := by simpa using hex
      rw [if_neg hex] at h
      cases hfe : fetchLicenseFrom reg fs f with
      | error e =>
        simp only [hfe] at h
        exact Except.noConfusion h
      | ok header =>
        simp only [hfe] at h
        by_cases hemp : (accepted_license header approved).isEmpty = true
        · exfalso
          rw [if_pos hemp] at h
          by_cases hdis : dis = true
          · rw [if_pos hdis] at h
            obtain ⟨h1, _⟩ := aux_process_mono reg fs approved ex dis rest _ _ h
            simp at h1
            omega
          · rw [if_neg hdis] at h
            cases hco : fs f with
            | none =>
              simp only [hco] at h
              exact Except.noConfusion h
            | some content =>
              simp only [hco] at h
              by_cases hck : checkSPDX (accepted_license header approved) 0
                  (linesOf content) = true
              · rw [if_pos hck] at h
                obtain ⟨h1, _⟩ := aux_process_mono reg fs approved ex dis rest _ _ h
                simp at h1
                omega
              · rw [if_neg hck] at h
                obtain ⟨h1, _⟩ := aux_process_mono reg fs approved ex dis rest _ _ h
                simp at h1
                omega
        · have hl : (accepted_license header approved).isEmpty = false := by
            simpa using hemp
          have hlic : accepted_license header approved ≠ [] := by
            intro e
            rw [e] at hl
            exact Bool.noConfusion hl
          rw [if_neg hemp] at h
          by_cases hdis : dis = true
          · rw [if_pos hdis] at h
            rcases List.mem_cons.mp hg with rfl | hg'
            · exact fun _ => ⟨header, hfe, hlic, Or.inl hdis⟩
            · exact ih _ _ h (by simpa using hm) (by simpa using hs) g hg'
          · rw [if_neg hdis] at h
            cases hco : fs f with
            | none =>
              simp only [hco] at h
              exact Except.noConfusion h
            | some content =>
              simp only [hco] at h
              by_cases hck : checkSPDX (accepted_license header approved) 0
                  (linesOf content) = true
              · rw [if_pos hck] at h
                rcases List.mem_cons.mp hg with rfl | hg'
                · exact fun _ => ⟨header, hfe, hlic, Or.inr ⟨content, hco, hck⟩⟩
                · exact ih _ _ h (by simpa using hm) (by simpa using hs) g hg'
              · exfalso
                rw [if_neg hck] at h
                obtain ⟨_, h2⟩ := aux_process_mono reg fs approved ex dis rest _ _ h
                simp at h2
                omega

/-- Reduction of `mainExit` when the accepted list builds successfully. -/
theorem aux_mainExit_ok (reg fs : List Char → Option (List Char))
    (licenseArg excludeArg : List Char) (dis : Bool) (files : List (List Char))
    (approved : List License)
    (hA : mkAccepted reg fs (splitOnChar ',' licenseArg) = .ok approved) :
    mainExit reg fs licenseArg excludeArg dis files =
      (match processFiles reg fs approved excludeArg dis ⟨0, 0, 0, 0, 0⟩ files with
        | .error e => .error e
        | .ok cnt => .ok (if cnt.miss ≠ 0 ∨ cnt.spdx_miss ≠ 0 then 1 else 0)) := by
  unfold mainExit
  rw [hA]

/-- Reduction of `mainExit` when building the accepted list fails. -/
theorem aux_mainExit_err (reg fs : List Char → Option (List Char))
    (licenseArg excludeArg : List Char) (dis : Bool) (files : List (List Char))
    (e : Unit)
    (hA : mkAccepted reg fs (splitOnChar ',' licenseArg) = .error e) :
    mainExit reg fs licenseArg excludeArg dis files = .error e := by
  unfold mainExit
  rw [hA]

/-- C8 (confirmed): the checking core exits 0 iff the accepted-license list
could be built (every reference file opened) and every non-excluded file's
header matched an accepted license and — unless `-disable-spdx` — its SPDX
check passed on the re-opened file; any miss, any SPDX miss, or any failed
required open yields exit 1 (`Except.error` models print-and-exit-1).  With
`-disable-spdx` the SPDX disjunct is discharged by `dis = true`, so SPDX
results never affect the exit status. -/
theorem mainExit_ok_iff (reg fs : List Char → Option (List Char))
    (licenseArg excludeArg : List Char) (disableSPDX : Bool)
    (files : List (List Char)) :
    mainExit reg fs licenseArg excludeArg disableSPDX files = .ok 0 ↔
      ∃ approved, mkAccepted reg fs (splitOnChar ',' licenseArg) = .ok approved ∧
        ∀ f ∈ files, fileGood reg fs approved excludeArg disableSPDX f := by
  cases hA : mkAccepted reg fs (splitOnChar ',' licenseArg) with
  | error e =>
    rw [aux_mainExit_err reg fs licenseArg excludeArg disableSPDX files e hA]
    constructor
    · intro h
      exact Except.noConfusion h
    · rintro ⟨A', hA', _⟩
      exact Except.noConfusion hA'
  | ok approved =>
    rw [aux_mainExit_ok reg fs licenseArg excludeArg disableSPDX files approved hA]
    cases hP : processFiles reg fs approved excludeArg disableSPDX ⟨0, 0, 0, 0, 0⟩ files with
    | error e =>
      constructor
      · intro h
        exact Except.noConfusion h
      · rintro ⟨A', hA', hgood⟩
        have hae : approved = A' := by
          simpa using hA'
        subst hae
        obtain ⟨cnt', hok, _, _⟩ := aux_process_complete reg fs approved excludeArg
          disableSPDX files hgood ⟨0, 0, 0, 0, 0⟩
        rw [hP] at hok
        exact Except.noConfusion hok
    | ok cnt =>
      constructor
      · intro h
        replace h : (Except.ok (if cnt.miss ≠ 0 ∨ cnt.spdx_miss ≠ 0 then 1 else 0) :
            Except Unit Nat) = Except.ok 0 := h
        simp only [Except.ok.injEq] at h
        split at h
        · exact absurd h one_ne_zero
        · rename_i hcond
          push_neg at hcond
          refine ⟨approved, rfl, ?_⟩
          exact aux_process_sound reg fs approved excludeArg disableSPDX files
            ⟨0, 0, 0, 0, 0⟩ cnt hP (by simp [hcond.1]) (by simp [hcond.2])
      · rintro ⟨A', hA', hgood⟩
        have hae : approved = A' := by
          simpa using hA'
        subst hae
        obtain ⟨cnt', hok, hm, hs⟩ := aux_process_complete reg fs approved excludeArg
          disableSPDX files hgood ⟨0, 0, 0, 0, 0⟩
        rw [hP] at hok
        have hce : cnt = cnt' := by
          simpa using hok
        subst hce
        simp at hm hs
        simp [hm, hs]

/-- Witness for `mainExit_ok_iff`: a concrete run with one reference file and
one checked file, SPDX disabled, exiting 0. -/
theorem mainExit_ok_iff_inst :
    mainExit (fun _ => none)
      (fun n => if n = cs ("lic") then some (cs ("ZZ"))
        else if n = cs ("a.go") then some (cs ("ZZ")) else none)
      (cs ("lic")) (cs ("")) true [cs ("a.go")] = .ok 0 := by
  refine (mainExit_ok_iff (fun _ => none)
      (fun n => if n = cs ("lic") then some (cs ("ZZ"))
        else if n = cs ("a.go") then some (cs ("ZZ")) else none)
      (cs ("lic")) (cs ("")) true [cs ("a.go")]).mpr
    ⟨[⟨cs ("lic"), cs ("ZZ")⟩], rfl, ?_⟩
  intro f hf
  have hfe : f = cs ("a.go") := List.mem_singleton.mp hf
  subst hfe
  intro _
  exact ⟨cs ("ZZ"), rfl, by decide, Or.inl rfl⟩
